import Mathlib

/-!
Verification of the onion HTTP server poller (src/onion/poller.c).

The C module is embedded shallowly:
- `struct onion_poller_el_t` becomes `PollerEl`; the intrusive `next`
  pointer becomes the tail of a Lean list, and the per-element
  `pthread_mutex_t` becomes the explicit `locked` flag.
- `struct onion_poller_t` becomes `Poller`.  The OS epoll interest list
  (state held by the kernel, not in the C struct) is modelled by the
  extra `epollSet` field so that registration and de-registration are
  observable.
- Callbacks, shutdown hooks and their opaque data pointers are opaque
  numeric identifiers; the value a callback returns is supplied as an
  input (an oracle), as are the success or failure of `epoll_ctl` calls
  and the outcome of each `epoll_wait`.
- Side effects (epoll_ctl calls with their event masks, callback and
  hook invocations, frees, log lines) are collected in a trace of `Ev`
  values so that ordering claims can be stated.
- A function that in C would dereference a NULL pointer yields
  `Outcome.crash`; one that would block forever acquiring a mutex that
  is already held yields `Outcome.blocked`.
-/

/-- One registry element (`struct onion_poller_el_t`).  Field order
follows the C struct; `locked` models the state of `el->mutex`. -/
structure PollerEl where
  fd : Int
  f : Nat
  data : Nat
  shutdown : Option Nat
  shutdown_data : Nat
  delta_timeout : Int
  timeout : Int
  locked : Bool
  active : Bool
deriving DecidableEq, Repr

/-- Observable side effects of the poller code, in program order. -/
inductive Ev where
  | epollCtlAdd (fd : Int) (events : Nat)
  | epollCtlMod (fd : Int) (events : Nat)
  | epollCtlDel (fd : Int)
  | epollWaitCall (cap : Nat) (delivered : Nat)
  | callCb (f : Nat) (data : Nat) (ret : Int)
  | callHook (h : Nat) (data : Nat)
  | freeEl (fd : Int)
  | freePoller
  | closeFd (fd : Int)
  | resetDelta (fd : Int)
  | logError
  | logDebug
  | logWarningUnknown (fd : Int)
  | logWarningActive
deriving DecidableEq, Repr

/-- The poller (`struct onion_poller_t`).  `n` is the element count,
`npollers` the number of threads inside `onion_poller_poll`.  `epollSet`
models the kernel-side epoll interest list of `p->fd`. -/
structure Poller where
  fd : Int
  stop : Bool
  n : Int
  npollers : Int
  head : List PollerEl
  epollSet : List Int
deriving DecidableEq, Repr

/-- Result of running a piece of C code: a normal return, blocking
forever on a mutex, or undefined behaviour (NULL dereference). -/
inductive Outcome (α : Type) where
  | ok (a : α)
  | blocked
  | crash
deriving DecidableEq, Repr

/-- epoll event mask bits used by the code (from sys/epoll.h). -/
def EPOLLIN : Nat := 1

/-- EPOLLHUP bit. -/
def EPOLLHUP : Nat := 16

/-- EPOLLONESHOT bit. -/
def EPOLLONESHOT : Nat := 1073741824

/-- The mask `EPOLLIN | EPOLLHUP | EPOLLONESHOT` used by both
`onion_poller_go` and the re-arm in `onion_poller_poll`. -/
def go_events : Nat := EPOLLIN ||| EPOLLHUP ||| EPOLLONESHOT

/-- The linear scan of `onion_poller_find_fd_and_lock`: first element
with the given descriptor. -/
def findFd : List PollerEl → Int → Option PollerEl
  | [], _ => none
  | el :: rest, fd => if el.fd = fd then some el else findFd rest fd

/-- Result of `onion_poller_find_fd_and_lock`: either the descriptor is
absent, or the mutex of its element is already held (the lock acquisition
blocks forever), or the element is returned with its mutex taken. -/
inductive LockFind where
  | notFound
  | blocked
  | found (el : PollerEl)
deriving DecidableEq, Repr

/-- `onion_poller_find_fd_and_lock`: scan under the registry mutex,
then lock the element before releasing the registry mutex. -/
def onion_poller_find_fd_and_lock (p : Poller) (fd : Int) : LockFind :=
  match findFd p.head fd with
  | none => LockFind.notFound
  | some el => if el.locked then LockFind.blocked else LockFind.found el

/-- Replace the first element with the given descriptor (the one
`findFd` returns) by `g` applied to it. -/
def updateFirst : List PollerEl → Int → (PollerEl → PollerEl) → List PollerEl
  | [], _, _ => []
  | el :: rest, fd, g => if el.fd = fd then g el :: rest else el :: updateFirst rest fd g

/-- Drop the first element with the given descriptor. -/
def eraseFd (fd : Int) : List PollerEl → List PollerEl
  | [] => []
  | el :: rest => if el.fd = fd then rest else el :: eraseFd fd rest

/-- The shutdown hook invocation of an element: `if (el->shutdown)
el->shutdown(el->shutdown_data);`. -/
def hookEvs (el : PollerEl) : List Ev :=
  match el.shutdown with
  | some h => [Ev.callHook h el.shutdown_data]
  | none => []

/-- `onion_poller_add`: build a fresh inactive element (no timeout, no
shutdown hook, mutex initialised unlocked) and append it at the tail of
the registry under the registry mutex; `poller->n++`; returns 0.  There
is no check whether the descriptor is already present. -/
def onion_poller_add (p : Poller) (fd : Int) (f : Nat) (data : Nat) : Int × Poller :=
  let nel : PollerEl :=
    { fd := fd, f := f, data := data, shutdown := none, shutdown_data := 0,
      delta_timeout := -1, timeout := -1, locked := false, active := false }
  (0, { p with head := p.head ++ [nel], n := p.n + 1 })

/-- `onion_poller_go` (activate).  `osOk` is whether the
`epoll_ctl(EPOLL_CTL_ADD)` call succeeds.  Not found: return 0 with no
state change.  Found: set `active`, register with mask `go_events`; on
success unlock and return 1; on `epoll_ctl` failure the function logs
and returns 1 **without unlocking the mutex of the element** (so `locked`
stays true) and without the descriptor entering the epoll set. -/
def onion_poller_go (osOk : Bool) (p : Poller) (fd : Int) : Outcome (Int × Poller × List Ev) :=
  match onion_poller_find_fd_and_lock p fd with
  | LockFind.notFound => Outcome.ok (0, p, [])
  | LockFind.blocked => Outcome.blocked
  | LockFind.found _ =>
    if osOk then
      Outcome.ok (1,
        { p with head := updateFirst p.head fd (fun e => { e with active := true }),
                 epollSet := fd :: p.epollSet },
        [Ev.epollCtlAdd fd go_events])
    else
      Outcome.ok (1,
        { p with head := updateFirst p.head fd (fun e => { e with active := true, locked := true }) },
        [Ev.epollCtlAdd fd go_events, Ev.logError])

/-- `onion_poller_set_shutdown`.  The C code guards the lookup result
with `if (!poller)` — a test of the poller pointer, which is non-null
for every constructed poller — instead of `if (!el)`; hence when the
descriptor is absent the NULL element pointer is dereferenced
(`el->shutdown=f`): undefined behaviour, modelled as `crash`. -/
def onion_poller_set_shutdown (p : Poller) (fd : Int) (f : Option Nat) (data : Nat) :
    Outcome (Int × Poller) :=
  match onion_poller_find_fd_and_lock p fd with
  | LockFind.notFound => Outcome.crash
  | LockFind.blocked => Outcome.blocked
  | LockFind.found _ =>
    Outcome.ok (1,
      { p with head := (updateFirst p.head fd
          (fun e => { e with shutdown := f, shutdown_data := data })) })

/-- `onion_poller_set_timeout`.  Same `if (!poller)` slip as
`onion_poller_set_shutdown`: an absent descriptor is a NULL
dereference, not a `return 0`. -/
def onion_poller_set_timeout (p : Poller) (fd : Int) (timeout : Int) :
    Outcome (Int × Poller) :=
  match onion_poller_find_fd_and_lock p fd with
  | LockFind.notFound => Outcome.crash
  | LockFind.blocked => Outcome.blocked
  | LockFind.found _ =>
    Outcome.ok (1,
      { p with head := (updateFirst p.head fd
          (fun e => { e with timeout := timeout, delta_timeout := timeout })) })

/-- `onion_poller_free_element`: lock the element, `epoll_ctl
(EPOLL_CTL_DEL)` (log on failure, continue), run the shutdown hook if
set, unlock, `free(el)`, `poller->n--`.  `delOk` is whether the DEL
call succeeds (when it does, the descriptor leaves the epoll set). -/
def onion_poller_free_element (delOk : Bool) (p : Poller) (el : PollerEl) :
    Outcome (Poller × List Ev) :=
  if el.locked then Outcome.blocked
  else
    Outcome.ok
      ({ p with n := p.n - 1,
                epollSet := if delOk then p.epollSet.erase el.fd else p.epollSet },
       Ev.epollCtlDel el.fd ::
         ((if delOk then [] else [Ev.logError]) ++ hookEvs el ++ [Ev.freeEl el.fd]))

/-- The `while (el->next)` search of `onion_poller_remove`: returns the
list with the first match unlinked together with the unlinked element. -/
def removeTail (fd : Int) : List PollerEl → Option (List PollerEl × PollerEl)
  | [] => none
  | el :: rest =>
    if el.fd = fd then some (rest, el)
    else
      match removeTail fd rest with
      | some (rest2, t) => some (el :: rest2, t)
      | none => none

/-- `onion_poller_remove`.  Head match: unlink and free.  Otherwise the
`while (el->next)` loop scans the tail.  When the registry is empty,
`el` is NULL and `el->next` is dereferenced: `crash`.  Unknown
descriptor in a non-empty registry: warning, return 0.  Every return
path yields 0. -/
def onion_poller_remove (delOk : Bool) (p : Poller) (fd : Int) :
    Outcome (Int × Poller × List Ev) :=
  match p.head with
  | [] => Outcome.crash
  | el :: rest =>
    if el.fd = fd then
      match onion_poller_free_element delOk { p with head := rest } el with
      | Outcome.ok (p2, tr) => Outcome.ok (0, p2, tr)
      | Outcome.blocked => Outcome.blocked
      | Outcome.crash => Outcome.crash
    else
      match removeTail fd rest with
      | some (rest2, t) =>
        match onion_poller_free_element delOk { p with head := el :: rest2 } t with
        | Outcome.ok (p2, tr) => Outcome.ok (0, p2, tr)
        | Outcome.blocked => Outcome.blocked
        | Outcome.crash => Outcome.crash
      | none => Outcome.ok (0, p, [Ev.logWarningUnknown fd])

/-- The `while (next)` cleanup loop of `onion_poller_free`: for each
element, lock its mutex, run the shutdown hook if set, unlock, free. -/
def onion_poller_free_loop : List PollerEl → Outcome (List Ev)
  | [] => Outcome.ok []
  | el :: rest =>
    if el.locked then Outcome.blocked
    else
      match onion_poller_free_loop rest with
      | Outcome.ok tr => Outcome.ok (hookEvs el ++ (Ev.freeEl el.fd :: tr))
      | o => o

/-- `onion_poller_free`: set `stop`, `close(p->fd)`, bounded wait for
`npollers` (no registry effect), then `if (pthread_mutex_trylock
(&p->mutex) > 0)`.  `pthread_mutex_trylock` returns 0 on success and
EBUSY (positive) when the mutex is already held, so `mutexHeld` — the
registry mutex being held by some thread at that moment — is exactly
when the test succeeds: the code then warns and runs the cleanup loop,
freeing everything.  When no thread holds the mutex (in particular
when no poll thread is active), the test is false and nothing at all
is freed and no hook runs.  The returned Bool is whether the elements
and the poller were freed. -/
def onion_poller_free (mutexHeld : Bool) (p : Poller) : Outcome (Bool × List Ev) :=
  if mutexHeld then
    match onion_poller_free_loop p.head with
    | Outcome.ok tr =>
      Outcome.ok (true, Ev.closeFd p.fd :: Ev.logWarningActive :: (tr ++ [Ev.freePoller]))
    | Outcome.blocked => Outcome.blocked
    | Outcome.crash => Outcome.crash
  else Outcome.ok (false, [Ev.closeFd p.fd])

/-- The body of the event loop in `onion_poller_poll` for one ready
event: lock the element, `el->delta_timeout = el->timeout`, call the
callback; negative return: unlock and `onion_poller_remove`;
non-negative: re-arm via `epoll_ctl(EPOLL_CTL_MOD)` with mask
`go_events` (log on failure) and unlock.  The epoll event carries the
element pointer; it is recovered here from the registry by descriptor
(the first match, which is the pointed-to element whenever descriptors
are unique); a pointer to an element no longer in the registry is a
dangling pointer: `crash`. -/
def dispatchEvent (delOk modOk : Bool) (cbRet : Int) (p : Poller) (fd : Int) :
    Outcome (Poller × List Ev) :=
  match findFd p.head fd with
  | none => Outcome.crash
  | some el =>
    if el.locked then Outcome.blocked
    else
      let p1 := { p with head := (updateFirst p.head fd
                    (fun e => { e with delta_timeout := e.timeout })) }
      if cbRet < 0 then
        match onion_poller_remove delOk p1 fd with
        | Outcome.ok (_, p2, tr) =>
          Outcome.ok (p2, Ev.resetDelta fd :: Ev.callCb el.f el.data cbRet :: tr)
        | Outcome.blocked => Outcome.blocked
        | Outcome.crash => Outcome.crash
      else
        Outcome.ok (p1,
          Ev.resetDelta fd :: Ev.callCb el.f el.data cbRet ::
            Ev.epollCtlMod fd go_events :: (if modOk then [] else [Ev.logError]))

/-- `#define MAX_EVENTS 10`: cap passed to every `epoll_wait`. -/
def MAX_EVENTS : Nat := 10

/-- One ready event as delivered by `epoll_wait`, together with the
oracle inputs its handling consumes: the return value of the callback and
the success of the `epoll_ctl` calls that may follow. -/
structure ReadyEv where
  fd : Int
  cbRet : Int
  delOk : Bool
  modOk : Bool
deriving DecidableEq, Repr

/-- Outcome of one `epoll_wait` call: failure (negative return) or a
batch of ready events. -/
inductive WaitRes where
  | waitFail
  | ready (evs : List ReadyEv)
deriving DecidableEq, Repr

/-- The `for (i=0;i<nfds;i++)` dispatch over one batch. -/
def dispatchBatch : Poller → List ReadyEv → Outcome (Poller × List Ev)
  | p, [] => Outcome.ok (p, [])
  | p, e :: rest =>
    match dispatchEvent e.delOk e.modOk e.cbRet p e.fd with
    | Outcome.ok (p1, tr1) =>
      match dispatchBatch p1 rest with
      | Outcome.ok (p2, tr2) => Outcome.ok (p2, tr1 ++ tr2)
      | Outcome.blocked => Outcome.blocked
      | Outcome.crash => Outcome.crash
    | Outcome.blocked => Outcome.blocked
    | Outcome.crash => Outcome.crash

/-- Result of one iteration of the `while` loop in
`onion_poller_poll`: exit the function (with `npollers` already
decremented), or continue with the new state. -/
inductive IterRes where
  | exit (p : Poller) (tr : List Ev)
  | cont (p : Poller) (tr : List Ev)
  | blocked
  | crash
deriving DecidableEq, Repr

/-- One iteration of the poll loop: the `while (!p->stop && p->head)`
guard, then `epoll_wait(p->fd, event, MAX_EVENTS, timeout)`.  On wait
failure (`nfds < 0`): if `p->fd < 0` or the registry is empty,
decrement `npollers` and return; otherwise the failure is only logged
(the dispatch loop runs zero times) and the loop continues.  On
success, at most `MAX_EVENTS` events are delivered and dispatched. -/
def pollIter (p : Poller) (w : WaitRes) : IterRes :=
  if p.stop = true ∨ p.head = [] then
    IterRes.exit { p with npollers := p.npollers - 1 } []
  else
    match w with
    | WaitRes.waitFail =>
      if p.fd < 0 ∨ p.head = [] then
        IterRes.exit { p with npollers := p.npollers - 1 }
          [Ev.epollWaitCall MAX_EVENTS 0, Ev.logDebug]
      else IterRes.cont p [Ev.epollWaitCall MAX_EVENTS 0, Ev.logDebug]
    | WaitRes.ready evs =>
      let batch := evs.take MAX_EVENTS
      match dispatchBatch p batch with
      | Outcome.ok (p1, tr) =>
        IterRes.cont p1 (Ev.epollWaitCall MAX_EVENTS batch.length :: tr)
      | Outcome.blocked => IterRes.blocked
      | Outcome.crash => IterRes.crash

/-- Result of running the poll loop against a finite stream of
`epoll_wait` outcomes: the loop returned (`exited`), or the stream ran
out with the loop still going (`running`). -/
inductive LoopRes where
  | exited (p : Poller) (tr : List Ev)
  | running (p : Poller) (tr : List Ev)
  | blocked
  | crash
deriving DecidableEq, Repr

/-- Prefix a trace onto a loop result. -/
def LoopRes.addTrace (tr : List Ev) : LoopRes → LoopRes
  | LoopRes.exited p tr2 => LoopRes.exited p (tr ++ tr2)
  | LoopRes.running p tr2 => LoopRes.running p (tr ++ tr2)
  | LoopRes.blocked => LoopRes.blocked
  | LoopRes.crash => LoopRes.crash

/-- The trace of a loop result. -/
def LoopRes.trace : LoopRes → List Ev
  | LoopRes.exited _ tr => tr
  | LoopRes.running _ tr => tr
  | LoopRes.blocked => []
  | LoopRes.crash => []

/-- The `while` loop of `onion_poller_poll`, driven by a finite stream
of `epoll_wait` outcomes.  When the stream is exhausted the guard is
checked once more: a false guard is the normal exit (with the final
`npollers--`), a true guard leaves the loop `running`. -/
def pollLoop : List WaitRes → Poller → LoopRes
  | [], p =>
    if p.stop = true ∨ p.head = [] then
      LoopRes.exited { p with npollers := p.npollers - 1 } []
    else LoopRes.running p []
  | w :: ws, p =>
    match pollIter p w with
    | IterRes.exit p2 tr => LoopRes.exited p2 tr
    | IterRes.cont p2 tr => LoopRes.addTrace tr (pollLoop ws p2)
    | IterRes.blocked => LoopRes.blocked
    | IterRes.crash => LoopRes.crash

/-- `onion_poller_poll`: on entry `p->stop = 0` is executed
unconditionally, then `npollers` is incremented under the registry
mutex, then the loop runs. -/
def onion_poller_poll (ws : List WaitRes) (p : Poller) : LoopRes :=
  pollLoop ws { p with stop := false, npollers := p.npollers + 1 }

/-- `onion_poller_stop`: `p->stop = 1`. -/
def onion_poller_stop (p : Poller) : Poller :=
  { p with stop := true }

/-- True on every event except an `epoll_wait` call whose cap differs
from `MAX_EVENTS` or which delivered more than `MAX_EVENTS` events. -/
def Ev.waitCallBounded : Ev → Bool
  | Ev.epollWaitCall cap nd => cap == MAX_EVENTS && decide (nd ≤ MAX_EVENTS)
  | _ => true

/-! ### Concrete pollers used as inputs for witnesses and failing runs -/

/-- A poller with an empty registry. -/
def pEmpty : Poller :=
  { fd := 4, stop := false, n := 0, npollers := 0, head := [], epollSet := [] }

/-- Element with descriptor 3, no shutdown hook. -/
def elA : PollerEl :=
  { fd := 3, f := 1, data := 10, shutdown := none, shutdown_data := 0,
    delta_timeout := -1, timeout := -1, locked := false, active := false }

/-- Element with descriptor 7 and shutdown hook 11. -/
def elB : PollerEl :=
  { fd := 7, f := 2, data := 20, shutdown := some 11, shutdown_data := 21,
    delta_timeout := -1, timeout := 5000, locked := false, active := true }

/-- A poller holding only descriptor 3. -/
def pA : Poller :=
  { fd := 4, stop := false, n := 1, npollers := 0, head := [elA], epollSet := [] }

/-- A poller holding descriptors 3 and 7 (7 has a shutdown hook). -/
def pW : Poller :=
  { fd := 4, stop := false, n := 2, npollers := 0, head := [elA, elB], epollSet := [3, 7] }

/-- First element for the destroy scenario: descriptor 1, hook 11. -/
def elH1 : PollerEl :=
  { fd := 1, f := 1, data := 10, shutdown := some 11, shutdown_data := 101,
    delta_timeout := -1, timeout := -1, locked := false, active := true }

/-- Second element for the destroy scenario: descriptor 2, hook 12. -/
def elH2 : PollerEl :=
  { fd := 2, f := 2, data := 20, shutdown := some 12, shutdown_data := 102,
    delta_timeout := -1, timeout := -1, locked := false, active := true }

/-- Destroy scenario: two registered entries with hooks, no active
poll thread (`npollers = 0`). -/
def pFree : Poller :=
  { fd := 5, stop := false, n := 2, npollers := 0, head := [elH1, elH2], epollSet := [1, 2] }

/-! ### Shared helper lemmas -/

theorem findFd_fd_eq {l : List PollerEl} {fd : Int} {el : PollerEl}
    (h : findFd l fd = some el) : el.fd = fd := by
  induction l with
  | nil => simp [findFd] at h
  | cons e rest ih =>
    by_cases he : e.fd = fd
    · simp only [findFd, if_pos he] at h
      cases h
      exact he
    · simp only [findFd, if_neg he] at h
      exact ih h

theorem removeTail_of_findFd {l : List PollerEl} {fd : Int} {t : PollerEl}
    (h : findFd l fd = some t) : removeTail fd l = some (eraseFd fd l, t) := by
  induction l with
  | nil => simp [findFd] at h
  | cons e rest ih =>
    by_cases he : e.fd = fd
    · simp only [findFd, if_pos he] at h
      cases h
      simp [removeTail, eraseFd, he]
    · simp only [findFd, if_neg he] at h
      simp [removeTail, eraseFd, he, ih h]

theorem removeTail_some_eq {l : List PollerEl} {fd : Int} {l2 : List PollerEl} {t : PollerEl}
    (h : removeTail fd l = some (l2, t)) : findFd l fd = some t ∧ l2 = eraseFd fd l := by
  induction l generalizing l2 t with
  | nil => simp [removeTail] at h
  | cons e rest ih =>
    by_cases he : e.fd = fd
    · simp only [removeTail, if_pos he, Option.some.injEq, Prod.mk.injEq] at h
      obtain ⟨h1, h2⟩ := h
      subst h1; subst h2
      simp [findFd, eraseFd, he]
    · simp only [removeTail, if_neg he] at h
      cases hr : removeTail fd rest with
      | none => rw [hr] at h; simp at h
      | some pr =>
        obtain ⟨rest2, t2⟩ := pr
        rw [hr] at h
        simp only [Option.some.injEq, Prod.mk.injEq] at h
        obtain ⟨h1, h2⟩ := h
        obtain ⟨hf, hrest⟩ := ih hr
        subst h2
        simp [findFd, eraseFd, he, hf, ← h1, hrest]

theorem eraseFd_sublist (fd : Int) (l : List PollerEl) : List.Sublist (eraseFd fd l) l := by
  induction l with
  | nil => simp [eraseFd]
  | cons e rest ih =>
    by_cases he : e.fd = fd
    · simp only [eraseFd, if_pos he]
      exact List.sublist_cons_self e rest
    · simp only [eraseFd, if_neg he]
      exact List.Sublist.cons₂ e ih

theorem findFd_updateFirst {l : List PollerEl} {fd : Int} {g : PollerEl → PollerEl}
    (hg : ∀ e, (g e).fd = e.fd) :
    findFd (updateFirst l fd g) fd = (findFd l fd).map g := by
  induction l with
  | nil => simp [updateFirst, findFd]
  | cons e rest ih =>
    by_cases he : e.fd = fd
    · simp [updateFirst, findFd, he, hg]
    · simp [updateFirst, findFd, he, ih]

theorem eraseFd_updateFirst {l : List PollerEl} {fd : Int} {g : PollerEl → PollerEl}
    (hg : ∀ e, (g e).fd = e.fd) :
    eraseFd fd (updateFirst l fd g) = eraseFd fd l := by
  induction l with
  | nil => simp [updateFirst, eraseFd]
  | cons e rest ih =>
    by_cases he : e.fd = fd
    · simp [updateFirst, eraseFd, he, hg]
    · simp [updateFirst, eraseFd, he, ih]

theorem map_fd_updateFirst {l : List PollerEl} {fd : Int} {g : PollerEl → PollerEl}
    (hg : ∀ e, (g e).fd = e.fd) :
    (updateFirst l fd g).map PollerEl.fd = l.map PollerEl.fd := by
  induction l with
  | nil => simp [updateFirst]
  | cons e rest ih =>
    by_cases he : e.fd = fd
    · simp [updateFirst, he, hg]
    · simp [updateFirst, he, ih]

/-- Behaviour of `onion_poller_remove` on a present descriptor whose
element mutex is free: unlink the first match, `EPOLL_CTL_DEL`, run the
hook if set, free the element, `n--`. -/
theorem remove_present_spec {delOk : Bool} {p : Poller} {fd : Int} {el : PollerEl}
    (hfind : findFd p.head fd = some el) (hlock : el.locked = false) :
    onion_poller_remove delOk p fd =
      Outcome.ok (0,
        { p with head := eraseFd fd p.head, n := p.n - 1,
                 epollSet := if delOk then p.epollSet.erase fd else p.epollSet },
        Ev.epollCtlDel fd ::
          ((if delOk then [] else [Ev.logError]) ++ hookEvs el ++ [Ev.freeEl fd])) := by
  have hfd := findFd_fd_eq hfind
  cases hh : p.head with
  | nil => rw [hh] at hfind; simp [findFd] at hfind
  | cons e rest =>
    rw [hh] at hfind
    by_cases he : e.fd = fd
    · simp only [findFd, if_pos he] at hfind
      cases hfind
      simp only [onion_poller_remove, hh, if_pos he, onion_poller_free_element, hlock,
        Bool.false_eq_true, if_neg, ite_false, eraseFd, if_pos he]
      rw [hfd]
    · simp only [findFd, if_neg he] at hfind
      have hrt := removeTail_of_findFd hfind
      simp only [onion_poller_remove, hh, if_neg he, hrt, onion_poller_free_element, hlock,
        Bool.false_eq_true, ite_false, eraseFd]
      rw [hfd]

/-- Claim C1: `set_shutdown`/`set_timeout` on a descriptor that is not
in the registry do not return false — the lookup result is guarded
with `if (!poller)` instead of `if (!el)`, so the NULL element pointer
is dereferenced (undefined behaviour).  Shown on an empty registry and
on a non-empty registry that lacks descriptor 7; both contradict the
own doc comments of both functions (`@returns ... 0 if the file descriptor is
not on the poller`). -/
theorem c1_set_unknown_crashes :
    onion_poller_set_shutdown pEmpty 7 (some 5) 9 = Outcome.crash ∧
    onion_poller_set_timeout pEmpty 7 3000 = Outcome.crash ∧
    onion_poller_set_shutdown pA 7 (some 5) 9 = Outcome.crash ∧
    onion_poller_set_timeout pA 7 3000 = Outcome.crash :=
  ⟨rfl, rfl, rfl, rfl⟩

/-- Claim C2: `onion_poller_free` after the bounded wait.  The code
tests `pthread_mutex_trylock(&p->mutex) > 0`, but trylock returns 0 on
success, so with zero active threads (registry mutex free) the cleanup
block is skipped: no shutdown hook runs and nothing is freed — the
opposite of the claim.  When a thread holds the mutex the code logs
«not freeing memory» and then frees everything. -/
theorem c2_free_inverted :
    onion_poller_free false pFree = Outcome.ok (false, [Ev.closeFd 5]) ∧
    onion_poller_free true pFree =
      Outcome.ok (true,
        [Ev.closeFd 5, Ev.logWarningActive, Ev.callHook 11 101, Ev.freeEl 1,
         Ev.callHook 12 102, Ev.freeEl 2, Ev.freePoller]) :=
  ⟨rfl, rfl⟩

/-- Claim C3: removing an unknown descriptor.  On a non-empty registry
the code does log a warning and return without touching anything, but
on an empty registry (`p->head == NULL`) the `while (el->next)` loop
dereferences the NULL `el`: a crash, not a no-op — so a second
`remove(d)` after the registry has become empty is not safe. -/
theorem c3_remove_unknown :
    onion_poller_remove true pEmpty 7 = Outcome.crash ∧
    onion_poller_remove true pA 7 = Outcome.ok (0, pA, [Ev.logWarningUnknown 7]) :=
  ⟨rfl, rfl⟩

/-- Claim C9: `onion_poller_poll` executes `p->stop = 0` on entry,
before incrementing `npollers`, so a `stop` issued before a poll
thread starts has no effect on that poll run. -/
theorem c9_stop_cleared_on_entry :
    ∀ (ws : List WaitRes) (p : Poller),
      onion_poller_poll ws (onion_poller_stop p) = onion_poller_poll ws p := by
  intro ws p
  rfl

/-- Counterexample to claim C7 as stated: `onion_poller_add` appends
unconditionally, so adding descriptor 1 twice to an empty poller
yields a registry in which descriptor 1 appears twice. -/
theorem c7_counterexample :
    ¬ ((((onion_poller_add (onion_poller_add pEmpty 1 5 6).2 1 5 6).2).head.map
        PollerEl.fd).Nodup) := by
  decide

/-- Inversion for a normal return of `onion_poller_remove`: either the
warning no-op (descriptor unknown, registry non-empty) or the unlink /
de-register / hook / free path on the first matching element. -/
theorem remove_ok_cases {delOk : Bool} {p : Poller} {fd : Int} {r : Int} {p2 : Poller}
    {tr : List Ev} (h : onion_poller_remove delOk p fd = Outcome.ok (r, p2, tr)) :
    (p2 = p ∧ tr = [Ev.logWarningUnknown fd]) ∨
    (∃ el, findFd p.head fd = some el ∧
      p2 = { p with head := eraseFd fd p.head, n := p.n - 1,
                    epollSet := if delOk then p.epollSet.erase fd else p.epollSet } ∧
      tr = Ev.epollCtlDel fd ::
        ((if delOk then [] else [Ev.logError]) ++ hookEvs el ++ [Ev.freeEl fd])) := by
  cases hh : p.head with
  | nil => simp [onion_poller_remove, hh] at h
  | cons e rest =>
    simp only [onion_poller_remove, hh] at h
    by_cases he : e.fd = fd
    · rw [if_pos he] at h
      by_cases hl : e.locked = true
      · simp [onion_poller_free_element, hl] at h
      · simp only [onion_poller_free_element, hl, Bool.false_eq_true, ite_false,
          Outcome.ok.injEq, Prod.mk.injEq, if_neg] at h
        obtain ⟨h0, hp2, htr⟩ := h
        refine Or.inr ⟨e, ?_, ?_, ?_⟩
        · simp [findFd, he]
        · rw [← hp2]
          simp [eraseFd, if_pos he, he]
        · rw [← htr, he]
    · rw [if_neg he] at h
      cases hrt : removeTail fd rest with
      | none =>
        rw [hrt] at h
        simp only [Outcome.ok.injEq, Prod.mk.injEq] at h
        obtain ⟨h0, hp2, htr⟩ := h
        exact Or.inl ⟨hp2.symm, htr.symm⟩
      | some pr =>
        obtain ⟨rest2, t⟩ := pr
        rw [hrt] at h
        obtain ⟨hf, hrest2⟩ := removeTail_some_eq hrt
        have htfd : t.fd = fd := findFd_fd_eq hf
        by_cases hl : t.locked = true
        · simp [onion_poller_free_element, hl] at h
        · simp only [onion_poller_free_element, hl, Bool.false_eq_true, ite_false,
            Outcome.ok.injEq, Prod.mk.injEq, if_neg] at h
          obtain ⟨h0, hp2, htr⟩ := h
          refine Or.inr ⟨t, ?_, ?_, ?_⟩
          · simp [findFd, he, hf]
          · rw [← hp2]
            simp [eraseFd, he, htfd, hrest2]
          · rw [← htr, htfd]

/-- Claim C4: removing a present descriptor (element mutex free)
unlinks the first matching entry (head or interior), then de-registers
it from epoll, then runs its shutdown hook exactly once if one is set
(after the de-registration, before the free), then frees it and
decrements `n` by one.  The trace fixes the order; the resulting
poller fixes the state change. -/
theorem c4_remove_present :
    ∀ (delOk : Bool) (p : Poller) (fd : Int) (el : PollerEl),
      findFd p.head fd = some el → el.locked = false →
      onion_poller_remove delOk p fd =
        Outcome.ok (0,
          { p with head := eraseFd fd p.head, n := p.n - 1,
                   epollSet := if delOk then p.epollSet.erase fd else p.epollSet },
          Ev.epollCtlDel fd ::
            ((if delOk then [] else [Ev.logError]) ++ hookEvs el ++ [Ev.freeEl fd])) := by
  intro delOk p fd el hfind hlock
  exact remove_present_spec hfind hlock

/-- Witness for C4: removing descriptor 7 (interior position, hook 11
set) from the two-element poller `pW`. -/
theorem c4_remove_present_witness :
    findFd pW.head 7 = some elB ∧ elB.locked = false ∧
    onion_poller_remove true pW 7 =
      Outcome.ok (0,
        { pW with head := eraseFd 7 pW.head, n := pW.n - 1,
                  epollSet := pW.epollSet.erase 7 },
        Ev.epollCtlDel 7 :: (([] : List Ev) ++ hookEvs elB ++ [Ev.freeEl 7])) :=
  ⟨rfl, rfl, c4_remove_present true pW 7 elB rfl rfl⟩

/-- Claim C5: dispatch of one ready event.  `delta_timeout` is reset to
`timeout` before the callback runs (state update plus trace order);
a negative callback return leads to exactly one `onion_poller_remove`
of that descriptor within the iteration (its shutdown hook running as
part of removal) and no re-arm; a non-negative return leads to a
one-shot `EPOLL_CTL_MOD` re-arm with mask `go_events` and no removal. -/
theorem c5_dispatch :
    ∀ (delOk modOk : Bool) (cbRet : Int) (p : Poller) (fd : Int) (el : PollerEl),
      findFd p.head fd = some el → el.locked = false →
      ((cbRet < 0 →
        dispatchEvent delOk modOk cbRet p fd =
          Outcome.ok (
            { p with head := eraseFd fd p.head, n := p.n - 1,
                     epollSet := if delOk then p.epollSet.erase fd else p.epollSet },
            Ev.resetDelta fd :: Ev.callCb el.f el.data cbRet :: Ev.epollCtlDel fd ::
              ((if delOk then [] else [Ev.logError]) ++ hookEvs el ++ [Ev.freeEl fd]))) ∧
       (0 ≤ cbRet →
        dispatchEvent delOk modOk cbRet p fd =
          Outcome.ok (
            { p with head := (updateFirst p.head fd
                (fun e => { e with delta_timeout := e.timeout })) },
            Ev.resetDelta fd :: Ev.callCb el.f el.data cbRet ::
              Ev.epollCtlMod fd go_events :: (if modOk then [] else [Ev.logError])))) := by
  intro delOk modOk cbRet p fd el hfind hlock
  have hg : ∀ e : PollerEl, ({ e with delta_timeout := e.timeout } : PollerEl).fd = e.fd :=
    fun e => rfl
  constructor
  · intro hneg
    have hfind1 : findFd (updateFirst p.head fd
        (fun e => { e with delta_timeout := e.timeout })) fd =
        some { el with delta_timeout := el.timeout } := by
      rw [findFd_updateFirst hg, hfind]
      rfl
    have hrem := @remove_present_spec delOk
      { p with head := (updateFirst p.head fd
        (fun e => { e with delta_timeout := e.timeout })) }
      fd { el with delta_timeout := el.timeout } hfind1 hlock
    simp only [dispatchEvent, hfind, hlock, Bool.false_eq_true, ite_false, if_pos hneg, if_neg]
    rw [hrem]
    have herase : eraseFd fd (updateFirst p.head fd
        (fun e => { e with delta_timeout := e.timeout })) = eraseFd fd p.head :=
      eraseFd_updateFirst hg
    simp only [herase]
    rfl
  · intro hpos
    have hnneg : ¬ cbRet < 0 := not_lt.mpr hpos
    simp only [dispatchEvent, hfind, hlock, Bool.false_eq_true, ite_false, if_neg hnneg]

/-- Witness for C5: on `pW`, the callback of descriptor 7 returning -1
removes it (hook 11 firing) within the same dispatch. -/
theorem c5_dispatch_witness :
    findFd pW.head 7 = some elB ∧ elB.locked = false ∧ (-1 : Int) < 0 ∧
    dispatchEvent true true (-1) pW 7 =
      Outcome.ok (
        { pW with head := eraseFd 7 pW.head, n := pW.n - 1,
                  epollSet := pW.epollSet.erase 7 },
        Ev.resetDelta 7 :: Ev.callCb elB.f elB.data (-1) :: Ev.epollCtlDel 7 ::
          (([] : List Ev) ++ hookEvs elB ++ [Ev.freeEl 7])) :=
  ⟨rfl, rfl, by decide, (c5_dispatch true true (-1) pW 7 elB rfl rfl).1 (by decide)⟩

/-- Claim C6: `onion_poller_go` (activate).  Unknown descriptor:
returns 0 (false) with no state change.  Present descriptor (mutex
free): marks the element active; with a succeeding
`epoll_ctl(EPOLL_CTL_ADD)` the descriptor enters the epoll set with
the one-shot read/hangup mask `go_events` and 1 is returned; with a
failing call the element stays active but the epoll set is unchanged
(and the element mutex is left locked), and 1 is still returned — so a
0 (false) return happens only when the descriptor is absent. -/
theorem c6_go_activate :
    ∀ (osOk : Bool) (p : Poller) (fd : Int),
      (findFd p.head fd = none → onion_poller_go osOk p fd = Outcome.ok (0, p, [])) ∧
      (∀ el, findFd p.head fd = some el → el.locked = false →
        ((osOk = true →
          onion_poller_go osOk p fd =
            Outcome.ok (1,
              { p with head := (updateFirst p.head fd (fun e => { e with active := true })),
                       epollSet := fd :: p.epollSet },
              [Ev.epollCtlAdd fd go_events])) ∧
         (osOk = false →
          onion_poller_go osOk p fd =
            Outcome.ok (1,
              { p with head := (updateFirst p.head fd
                  (fun e => { e with active := true, locked := true })) },
              [Ev.epollCtlAdd fd go_events, Ev.logError])))) ∧
      (∀ r p2 tr, onion_poller_go osOk p fd = Outcome.ok (r, p2, tr) → r = 0 →
        findFd p.head fd = none) := by
  intro osOk p fd
  refine ⟨?_, ?_, ?_⟩
  · intro hnone
    simp [onion_poller_go, onion_poller_find_fd_and_lock, hnone]
  · intro el hfind hlock
    constructor
    · intro hosOk
      subst hosOk
      simp [onion_poller_go, onion_poller_find_fd_and_lock, hfind, hlock]
    · intro hosOk
      subst hosOk
      simp [onion_poller_go, onion_poller_find_fd_and_lock, hfind, hlock]
  · intro r p2 tr h hr0
    subst hr0
    cases hf : findFd p.head fd with
    | none => rfl
    | some el =>
      by_cases hl : el.locked = true
      · simp [onion_poller_go, onion_poller_find_fd_and_lock, hf, hl] at h
      · cases osOk with
        | true =>
          simp [onion_poller_go, onion_poller_find_fd_and_lock, hf, hl] at h
        | false =>
          simp [onion_poller_go, onion_poller_find_fd_and_lock, hf, hl] at h

/-- Witness for C6: activating the present descriptor 3 on `pW` with a
succeeding OS registration. -/
theorem c6_go_activate_witness :
    findFd pW.head 3 = some elA ∧ elA.locked = false ∧
    onion_poller_go true pW 3 =
      Outcome.ok (1,
        { pW with head := (updateFirst pW.head 3 (fun e => { e with active := true })),
                  epollSet := 3 :: pW.epollSet },
        [Ev.epollCtlAdd 3 go_events]) :=
  ⟨rfl, rfl, ((c6_go_activate true pW 3).2.1 elA rfl rfl).1 rfl⟩

/-- Claim C7 (amended): `onion_poller_add` appends unconditionally, so
descriptor-uniqueness of the registry is preserved by add only when
the descriptor is not already present; `onion_poller_remove` preserves
it unconditionally, and `onion_poller_go` does not change the
descriptor sequence at all. -/
theorem c7_uniqueness_amended :
    (∀ (p : Poller) (fd : Int) (f data : Nat),
      (p.head.map PollerEl.fd).Nodup → fd ∉ p.head.map PollerEl.fd →
      (((onion_poller_add p fd f data).2.head.map PollerEl.fd).Nodup)) ∧
    (∀ (delOk : Bool) (p : Poller) (fd : Int) (r : Int) (p2 : Poller) (tr : List Ev),
      (p.head.map PollerEl.fd).Nodup →
      onion_poller_remove delOk p fd = Outcome.ok (r, p2, tr) →
      ((p2.head.map PollerEl.fd).Nodup)) ∧
    (∀ (osOk : Bool) (p : Poller) (fd : Int) (r : Int) (p2 : Poller) (tr : List Ev),
      onion_poller_go osOk p fd = Outcome.ok (r, p2, tr) →
      p2.head.map PollerEl.fd = p.head.map PollerEl.fd) := by
  refine ⟨?_, ?_, ?_⟩
  · intro p fd f data hnodup hnotmem
    simp only [onion_poller_add, List.map_append, List.map_cons, List.map_nil]
    rw [List.nodup_append]
    exact ⟨hnodup, List.nodup_singleton fd, by simpa using hnotmem⟩
  · intro delOk p fd r p2 tr hnodup h
    rcases remove_ok_cases h with ⟨hp2, _⟩ | ⟨el, _, hp2, _⟩
    · rw [hp2]; exact hnodup
    · rw [hp2]
      exact hnodup.sublist (List.Sublist.map PollerEl.fd (eraseFd_sublist fd p.head))
  · intro osOk p fd r p2 tr h
    cases hf : findFd p.head fd with
    | none =>
      simp only [onion_poller_go, onion_poller_find_fd_and_lock, hf, Outcome.ok.injEq,
        Prod.mk.injEq] at h
      rw [← h.2.1]
    | some el =>
      by_cases hl : el.locked = true
      · simp [onion_poller_go, onion_poller_find_fd_and_lock, hf, hl] at h
      · have hg1 : ∀ e : PollerEl, ({ e with active := true } : PollerEl).fd = e.fd :=
          fun e => rfl
        have hg2 : ∀ e : PollerEl,
            ({ e with active := true, locked := true } : PollerEl).fd = e.fd :=
          fun e => rfl
        cases osOk with
        | true =>
          simp only [onion_poller_go, onion_poller_find_fd_and_lock, hf, hl,
            Bool.false_eq_true, ite_false, ite_true, Outcome.ok.injEq, Prod.mk.injEq] at h
          rw [← h.2.1]
          exact map_fd_updateFirst hg1
        | false =>
          simp only [onion_poller_go, onion_poller_find_fd_and_lock, hf, hl,
            Bool.false_eq_true, ite_false, Outcome.ok.injEq, Prod.mk.injEq] at h
          rw [← h.2.1]
          exact map_fd_updateFirst hg2

/-- Witness for C7 (amended): adding fresh descriptor 9 to `pW` keeps
the descriptor list duplicate-free. -/
theorem c7_uniqueness_amended_witness :
    (pW.head.map PollerEl.fd).Nodup ∧ (9 : Int) ∉ pW.head.map PollerEl.fd ∧
    (((onion_poller_add pW 9 5 6).2.head.map PollerEl.fd).Nodup) :=
  ⟨by decide, by decide, c7_uniqueness_amended.1 pW 9 5 6 (by decide) (by decide)⟩

/-- Claim C10: when `onion_poller_go` finds the descriptor but the
`epoll_ctl` registration fails, it returns without unlocking the
mutex of the element; afterwards every operation that looks up that
descriptor — activate, set_shutdown, set_timeout or the poll-loop
dispatch of that element — blocks forever acquiring that mutex. -/
theorem c10_go_lock_leak :
    ∀ (p : Poller) (fd : Int) (el : PollerEl),
      findFd p.head fd = some el → el.locked = false →
      ∃ p2 tr, onion_poller_go false p fd = Outcome.ok (1, p2, tr) ∧
        findFd p2.head fd = some { el with active := true, locked := true } ∧
        onion_poller_find_fd_and_lock p2 fd = LockFind.blocked ∧
        (∀ osOk, onion_poller_go osOk p2 fd = Outcome.blocked) ∧
        (∀ h d, onion_poller_set_shutdown p2 fd h d = Outcome.blocked) ∧
        (∀ t, onion_poller_set_timeout p2 fd t = Outcome.blocked) ∧
        (∀ delOk modOk cbRet, dispatchEvent delOk modOk cbRet p2 fd = Outcome.blocked) := by
  intro p fd el hfind hlock
  have hg : ∀ e : PollerEl,
      ({ e with active := true, locked := true } : PollerEl).fd = e.fd := fun e => rfl
  refine ⟨{ p with head := (updateFirst p.head fd
      (fun e => { e with active := true, locked := true })) },
    [Ev.epollCtlAdd fd go_events, Ev.logError], ?_, ?_, ?_, ?_, ?_, ?_, ?_⟩
  · simp [onion_poller_go, onion_poller_find_fd_and_lock, hfind, hlock]
  · show findFd (updateFirst p.head fd _) fd = _
    rw [findFd_updateFirst hg, hfind]
    rfl
  · show onion_poller_find_fd_and_lock _ fd = _
    unfold onion_poller_find_fd_and_lock
    show (match findFd (updateFirst p.head fd _) fd with
      | none => LockFind.notFound
      | some el => if el.locked then LockFind.blocked else LockFind.found el) = _
    rw [findFd_updateFirst hg, hfind]
    rfl
  · intro osOk
    unfold onion_poller_go onion_poller_find_fd_and_lock
    show (match (match findFd (updateFirst p.head fd _) fd with
      | none => LockFind.notFound
      | some el => if el.locked then LockFind.blocked else LockFind.found el) with
      | LockFind.notFound => _ | LockFind.blocked => Outcome.blocked
      | LockFind.found _ => _) = _
    rw [findFd_updateFirst hg, hfind]
    rfl
  · intro h d
    unfold onion_poller_set_shutdown onion_poller_find_fd_and_lock
    show (match (match findFd (updateFirst p.head fd _) fd with
      | none => LockFind.notFound
      | some el => if el.locked then LockFind.blocked else LockFind.found el) with
      | LockFind.notFound => _ | LockFind.blocked => Outcome.blocked
      | LockFind.found _ => _) = _
    rw [findFd_updateFirst hg, hfind]
    rfl
  · intro t
    unfold onion_poller_set_timeout onion_poller_find_fd_and_lock
    show (match (match findFd (updateFirst p.head fd _) fd with
      | none => LockFind.notFound
      | some el => if el.locked then LockFind.blocked else LockFind.found el) with
      | LockFind.notFound => _ | LockFind.blocked => Outcome.blocked
      | LockFind.found _ => _) = _
    rw [findFd_updateFirst hg, hfind]
    rfl
  · intro delOk modOk cbRet
    unfold dispatchEvent
    show (match findFd (updateFirst p.head fd _) fd with
      | none => Outcome.crash
      | some el => _) = _
    rw [findFd_updateFirst hg, hfind]
    rfl

/-- Witness for C10: activating descriptor 3 on `pW` with a failing OS
registration leaves it permanently locked. -/
theorem c10_go_lock_leak_witness :
    findFd pW.head 3 = some elA ∧ elA.locked = false ∧
    (∃ p2 tr, onion_poller_go false pW 3 = Outcome.ok (1, p2, tr) ∧
      findFd p2.head 3 = some { elA with active := true, locked := true } ∧
      onion_poller_find_fd_and_lock p2 3 = LockFind.blocked ∧
      (∀ osOk, onion_poller_go osOk p2 3 = Outcome.blocked) ∧
      (∀ h d, onion_poller_set_shutdown p2 3 h d = Outcome.blocked) ∧
      (∀ t, onion_poller_set_timeout p2 3 t = Outcome.blocked) ∧
      (∀ delOk modOk cbRet, dispatchEvent delOk modOk cbRet p2 3 = Outcome.blocked)) :=
  ⟨rfl, rfl, c10_go_lock_leak pW 3 elA rfl rfl⟩

/-- A hook invocation trace contains no `epoll_wait` call. -/
theorem waitCallBounded_hookEvs (el : PollerEl) :
    (hookEvs el).all Ev.waitCallBounded = true := by
  unfold hookEvs
  cases el.shutdown <;> simp [Ev.waitCallBounded]

/-- Dispatching one event preserves `npollers`, `stop` and the epoll
handle, and its trace contains no out-of-bound `epoll_wait` call. -/
theorem dispatchEvent_ok_inv {delOk modOk : Bool} {cbRet : Int} {p : Poller} {fd : Int}
    {p2 : Poller} {tr : List Ev}
    (h : dispatchEvent delOk modOk cbRet p fd = Outcome.ok (p2, tr)) :
    p2.npollers = p.npollers ∧ p2.stop = p.stop ∧ p2.fd = p.fd ∧
    tr.all Ev.waitCallBounded = true := by
  cases hf : findFd p.head fd with
  | none => simp [dispatchEvent, hf] at h
  | some el =>
    by_cases hl : el.locked = true
    · simp [dispatchEvent, hf, hl] at h
    · by_cases hc : cbRet < 0
      · simp only [dispatchEvent, hf, hl, Bool.false_eq_true, ite_false, if_pos hc,
          if_neg] at h
        cases hrem : onion_poller_remove delOk
            { p with head := (updateFirst p.head fd
              (fun e => { e with delta_timeout := e.timeout })) } fd with
        | ok v =>
          obtain ⟨r0, p2x, trx⟩ := v
          rw [hrem] at h
          simp only [Outcome.ok.injEq, Prod.mk.injEq] at h
          obtain ⟨hp2, htr⟩ := h
          subst hp2
          rcases remove_ok_cases hrem with ⟨hp2x, htrx⟩ | ⟨el2, _, hp2x, htrx⟩
          · subst hp2x
            subst htrx
            refine ⟨rfl, rfl, rfl, ?_⟩
            rw [← htr]
            simp [Ev.waitCallBounded]
          · subst hp2x
            subst htrx
            refine ⟨rfl, rfl, rfl, ?_⟩
            rw [← htr]
            cases delOk <;>
              simp [Ev.waitCallBounded, List.all_append, waitCallBounded_hookEvs]
        | blocked => rw [hrem] at h; simp at h
        | crash => rw [hrem] at h; simp at h
      · simp only [dispatchEvent, hf, hl, Bool.false_eq_true, ite_false, if_neg hc,
          Outcome.ok.injEq, Prod.mk.injEq] at h
        obtain ⟨hp2, htr⟩ := h
        subst hp2
        refine ⟨rfl, rfl, rfl, ?_⟩
        rw [← htr]
        cases modOk <;> simp [Ev.waitCallBounded]

/-- Dispatching a batch preserves `npollers`, `stop` and the epoll
handle, and adds no `epoll_wait` call to the trace. -/
theorem dispatchBatch_ok_inv {evs : List ReadyEv} :
    ∀ {p p2 : Poller} {tr : List Ev},
      dispatchBatch p evs = Outcome.ok (p2, tr) →
      p2.npollers = p.npollers ∧ p2.stop = p.stop ∧ p2.fd = p.fd ∧
      tr.all Ev.waitCallBounded = true := by
  induction evs with
  | nil =>
    intro p p2 tr h
    simp only [dispatchBatch, Outcome.ok.injEq, Prod.mk.injEq] at h
    obtain ⟨hp, ht⟩ := h
    subst hp
    rw [← ht]
    exact ⟨rfl, rfl, rfl, rfl⟩
  | cons e rest ih =>
    intro p p2 tr h
    simp only [dispatchBatch] at h
    cases hd : dispatchEvent e.delOk e.modOk e.cbRet p e.fd with
    | ok v =>
      obtain ⟨p1, tr1⟩ := v
      simp only [hd] at h
      cases hb : dispatchBatch p1 rest with
      | ok v2 =>
        obtain ⟨p2x, tr2⟩ := v2
        simp only [hb] at h
        simp only [Outcome.ok.injEq, Prod.mk.injEq] at h
        obtain ⟨hp, ht⟩ := h
        subst hp
        obtain ⟨h1, h2, h3, h4⟩ := dispatchEvent_ok_inv hd
        obtain ⟨g1, g2, g3, g4⟩ := ih hb
        refine ⟨g1.trans h1, g2.trans h2, g3.trans h3, ?_⟩
        rw [← ht]
        simp [List.all_append, h4, g4]
      | blocked => simp [hb] at h
      | crash => simp [hb] at h
    | blocked => simp [hd] at h
    | crash => simp [hd] at h

/-- An iteration exits precisely under the termination
conditions: stop flag set, empty registry, or a failed wait with an
invalid epoll handle or empty registry. -/
theorem pollIter_exit_iff (p : Poller) (w : WaitRes) :
    (∃ p2 tr, pollIter p w = IterRes.exit p2 tr) ↔
      (p.stop = true ∨ p.head = [] ∨
        (w = WaitRes.waitFail ∧ (p.fd < 0 ∨ p.head = []))) := by
  by_cases hg : p.stop = true ∨ p.head = []
  · constructor
    · intro _
      rcases hg with h | h
      · exact Or.inl h
      · exact Or.inr (Or.inl h)
    · intro _
      exact ⟨{ p with npollers := p.npollers - 1 }, [],
        by simp only [pollIter, if_pos hg]⟩
  · cases w with
    | waitFail =>
      by_cases hfd : p.fd < 0 ∨ p.head = []
      · constructor
        · intro _
          exact Or.inr (Or.inr ⟨rfl, hfd⟩)
        · intro _
          exact ⟨{ p with npollers := p.npollers - 1 },
            [Ev.epollWaitCall MAX_EVENTS 0, Ev.logDebug],
            by simp only [pollIter, if_neg hg, if_pos hfd]⟩
      · constructor
        · rintro ⟨p2, tr, hx⟩
          simp [pollIter, if_neg hg, if_neg hfd] at hx
        · intro hr
          rcases hr with h | h | ⟨_, hf⟩
          · exact absurd (Or.inl h) hg
          · exact absurd (Or.inr h) hg
          · exact absurd hf hfd
    | ready evs =>
      constructor
      · rintro ⟨p2, tr, hx⟩
        simp only [pollIter, if_neg hg] at hx
        cases hb : dispatchBatch p (evs.take MAX_EVENTS) with
        | ok v =>
          obtain ⟨p1, tr1⟩ := v
          simp [hb] at hx
        | blocked => simp [hb] at hx
        | crash => simp [hb] at hx
      · intro hr
        rcases hr with h | h | ⟨hw, _⟩
        · exact absurd (Or.inl h) hg
        · exact absurd (Or.inr h) hg
        · exact absurd hw (by simp)

/-- An exiting iteration decrements `npollers` by one and its trace
stays within the `epoll_wait` bound. -/
theorem pollIter_exit_npollers {p : Poller} {w : WaitRes} {p2 : Poller} {tr : List Ev}
    (h : pollIter p w = IterRes.exit p2 tr) :
    p2.npollers = p.npollers - 1 ∧ tr.all Ev.waitCallBounded = true := by
  by_cases hg : p.stop = true ∨ p.head = []
  · simp only [pollIter, if_pos hg, IterRes.exit.injEq] at h
    obtain ⟨hp, ht⟩ := h
    rw [← hp, ← ht]
    exact ⟨rfl, rfl⟩
  · cases w with
    | waitFail =>
      by_cases hfd : p.fd < 0 ∨ p.head = []
      · simp only [pollIter, if_neg hg, if_pos hfd, IterRes.exit.injEq] at h
        obtain ⟨hp, ht⟩ := h
        rw [← hp, ← ht]
        exact ⟨rfl, rfl⟩
      · simp [pollIter, if_neg hg, if_neg hfd] at h
    | ready evs =>
      simp only [pollIter, if_neg hg] at h
      cases hb : dispatchBatch p (evs.take MAX_EVENTS) with
      | ok v =>
        obtain ⟨p1, tr1⟩ := v
        simp [hb] at h
      | blocked => simp [hb] at h
      | crash => simp [hb] at h

/-- A continuing iteration preserves `npollers`, `stop` and the epoll
handle, and its trace stays within the `epoll_wait` bound. -/
theorem pollIter_cont_inv {p : Poller} {w : WaitRes} {p2 : Poller} {tr : List Ev}
    (h : pollIter p w = IterRes.cont p2 tr) :
    p2.npollers = p.npollers ∧ p2.stop = p.stop ∧ p2.fd = p.fd ∧
    tr.all Ev.waitCallBounded = true := by
  by_cases hg : p.stop = true ∨ p.head = []
  · simp [pollIter, if_pos hg] at h
  · cases w with
    | waitFail =>
      by_cases hfd : p.fd < 0 ∨ p.head = []
      · simp [pollIter, if_neg hg, if_pos hfd] at h
      · simp only [pollIter, if_neg hg, if_neg hfd, IterRes.cont.injEq] at h
        obtain ⟨hp, ht⟩ := h
        rw [← hp, ← ht]
        exact ⟨rfl, rfl, rfl, rfl⟩
    | ready evs =>
      simp only [pollIter, if_neg hg] at h
      cases hb : dispatchBatch p (evs.take MAX_EVENTS) with
      | ok v =>
        obtain ⟨p1, tr1⟩ := v
        simp only [hb, IterRes.cont.injEq] at h
        obtain ⟨hp, ht⟩ := h
        subst hp
        obtain ⟨h1, h2, h3, h4⟩ := dispatchBatch_ok_inv hb
        refine ⟨h1, h2, h3, ?_⟩
        rw [← ht]
        have hlen : (evs.take MAX_EVENTS).length ≤ MAX_EVENTS := by
          rw [List.length_take]
          exact Nat.min_le_left _ _
        simp [Ev.waitCallBounded, h4, hlen]
      | blocked => simp [hb] at h
      | crash => simp [hb] at h

/-- A finished poll loop has decremented `npollers` exactly once. -/
theorem pollLoop_exited_npollers {ws : List WaitRes} :
    ∀ {p p2 : Poller} {tr : List Ev},
      pollLoop ws p = LoopRes.exited p2 tr → p2.npollers = p.npollers - 1 := by
  induction ws with
  | nil =>
    intro p p2 tr h
    by_cases hg : p.stop = true ∨ p.head = []
    · simp only [pollLoop, if_pos hg, LoopRes.exited.injEq] at h
      rw [← h.1]
    · simp [pollLoop, if_neg hg] at h
  | cons w ws2 ih =>
    intro p p2 tr h
    simp only [pollLoop] at h
    cases hi : pollIter p w with
    | exit p3 tr3 =>
      simp only [hi, LoopRes.exited.injEq] at h
      rw [← h.1]
      exact (pollIter_exit_npollers hi).1
    | cont p3 tr3 =>
      simp only [hi] at h
      cases hl : pollLoop ws2 p3 with
      | exited p4 tr4 =>
        rw [hl] at h
        simp only [LoopRes.addTrace, LoopRes.exited.injEq] at h
        rw [← h.1, ih hl, (pollIter_cont_inv hi).1]
      | running p4 tr4 => rw [hl] at h; simp [LoopRes.addTrace] at h
      | blocked => rw [hl] at h; simp [LoopRes.addTrace] at h
      | crash => rw [hl] at h; simp [LoopRes.addTrace] at h
    | blocked => simp [hi] at h
    | crash => simp [hi] at h

/-- Every `epoll_wait` call recorded by a poll-loop run requests at
most `MAX_EVENTS` events and is delivered no more. -/
theorem pollLoop_trace_bounded {ws : List WaitRes} :
    ∀ {p : Poller}, ((pollLoop ws p).trace).all Ev.waitCallBounded = true := by
  induction ws with
  | nil =>
    intro p
    by_cases hg : p.stop = true ∨ p.head = []
    · simp only [pollLoop, if_pos hg, LoopRes.trace]
      rfl
    · simp only [pollLoop, if_neg hg, LoopRes.trace]
      rfl
  | cons w ws2 ih =>
    intro p
    simp only [pollLoop]
    cases hi : pollIter p w with
    | exit p3 tr3 =>
      simp only [LoopRes.trace]
      exact (pollIter_exit_npollers hi).2
    | cont p3 tr3 =>
      have htr3 := (pollIter_cont_inv hi).2.2.2
      have h2 := ih (p := p3)
      cases hl : pollLoop ws2 p3 with
      | exited p4 tr4 =>
        rw [hl] at h2
        simp only [LoopRes.trace] at h2
        simp [hl, LoopRes.addTrace, LoopRes.trace, List.all_append, htr3, h2]
      | running p4 tr4 =>
        rw [hl] at h2
        simp only [LoopRes.trace] at h2
        simp [hl, LoopRes.addTrace, LoopRes.trace, List.all_append, htr3, h2]
      | blocked => simp [hl, LoopRes.addTrace, LoopRes.trace]
      | crash => simp [hl, LoopRes.addTrace, LoopRes.trace]
    | blocked => simp [LoopRes.trace]
    | crash => simp [LoopRes.trace]

/-- Claim C8: the poll loop.  (1) `MAX_EVENTS` is 10; (2) every
`epoll_wait` call in any run requests cap `MAX_EVENTS` and delivers at
most that many events; (3) an iteration exits exactly when the stop
flag is set, the registry is empty, or the wait failed while `p->fd`
is negative or the registry is empty; (4) an exit decrements the
active-thread count by one; (5) any other wait failure is logged and
the loop continues with the poller unchanged; (6) a full
`onion_poller_poll` run that exits restores `npollers` to its entry
value (one increment, one decrement). -/
theorem c8_poll_loop :
    MAX_EVENTS = 10 ∧
    (∀ (ws : List WaitRes) (p : Poller),
      ((pollLoop ws p).trace).all Ev.waitCallBounded = true) ∧
    (∀ (p : Poller) (w : WaitRes),
      (∃ p2 tr, pollIter p w = IterRes.exit p2 tr) ↔
        (p.stop = true ∨ p.head = [] ∨
          (w = WaitRes.waitFail ∧ (p.fd < 0 ∨ p.head = [])))) ∧
    (∀ (p : Poller) (w : WaitRes) (p2 : Poller) (tr : List Ev),
      pollIter p w = IterRes.exit p2 tr → p2.npollers = p.npollers - 1) ∧
    (∀ (p : Poller), p.stop = false → p.head ≠ [] → ¬ p.fd < 0 →
      pollIter p WaitRes.waitFail =
        IterRes.cont p [Ev.epollWaitCall MAX_EVENTS 0, Ev.logDebug]) ∧
    (∀ (ws : List WaitRes) (p : Poller) (p2 : Poller) (tr : List Ev),
      onion_poller_poll ws p = LoopRes.exited p2 tr → p2.npollers = p.npollers) := by
  refine ⟨rfl, ?_, ?_, ?_, ?_, ?_⟩
  · intro ws p
    exact pollLoop_trace_bounded
  · intro p w
    exact pollIter_exit_iff p w
  · intro p w p2 tr h
    exact (pollIter_exit_npollers h).1
  · intro p hstop hhead hfd
    have hg : ¬ (p.stop = true ∨ p.head = []) := by
      rw [hstop]
      simp [hhead]
    have hfd2 : ¬ (p.fd < 0 ∨ p.head = []) := by
      simp [hfd, hhead]
    simp only [pollIter, if_neg hg, if_neg hfd2]
  · intro ws p p2 tr h
    have := pollLoop_exited_npollers h
    rw [this]
    show p.npollers + 1 - 1 = p.npollers
    omega

/-- Witness for C8: on `pW` (stop clear, registry non-empty, valid
epoll handle) a failed wait is non-terminal: the iteration logs and
continues unchanged. -/
theorem c8_poll_loop_witness :
    pW.stop = false ∧ pW.head ≠ [] ∧ ¬ (pW.fd < 0) ∧
    pollIter pW WaitRes.waitFail =
      IterRes.cont pW [Ev.epollWaitCall MAX_EVENTS 0, Ev.logDebug] :=
  ⟨rfl, by decide, by decide, c8_poll_loop.2.2.2.2.1 pW rfl (by decide) (by decide)⟩
